import Mathlib

/-!
Verification of the proplot layout engine (`src/proplot/subplots.py`)
against its natural-language specification.

All physical quantities (inches, display dots) are modelled as rationals;
Python floats carry exact decimal literals in every scenario considered here,
so `ℚ` is a faithful carrier for the layout arithmetic.
-/

namespace Proplot

/-! ### Generic helpers: `min`/`max` of a rational list (Python `min(...)`/`max(...)`) -/

/-- Minimum of a list of rationals, `0` on the empty list (the empty case is
never reached by the embedded code, which only folds nonempty generators). -/
def qmin : List ℚ → ℚ
  | [] => 0
  | [x] => x
  | x :: y :: xs => min x (qmin (y :: xs))

/-- Maximum of a list of rationals, `0` on the empty list. -/
def qmax : List ℚ → ℚ
  | [] => 0
  | [x] => x
  | x :: y :: xs => max x (qmax (y :: xs))

theorem qmin_mem : ∀ (xs : List ℚ), xs ≠ [] → qmin xs ∈ xs
  | [x], _ => by simp [qmin]
  | x :: y :: xs, _ => by
    have ih := qmin_mem (y :: xs) (by simp)
    simp only [qmin]
    rcases le_total x (qmin (y :: xs)) with h | h
    · simp [min_eq_left h]
    · simp [min_eq_right h]
      right
      simpa using ih

theorem qmin_le : ∀ (xs : List ℚ) (x : ℚ), x ∈ xs → qmin xs ≤ x
  | [y], x, hx => by simp at hx; simp [qmin, hx]
  | y :: z :: xs, x, hx => by
    simp only [List.mem_cons] at hx
    simp only [qmin]
    rcases hx with h | h
    · subst h; exact min_le_left _ _
    · exact le_trans (min_le_right _ _)
        (qmin_le (z :: xs) x (by simpa using h))

theorem qmax_mem : ∀ (xs : List ℚ), xs ≠ [] → qmax xs ∈ xs
  | [x], _ => by simp [qmax]
  | x :: y :: xs, _ => by
    have ih := qmax_mem (y :: xs) (by simp)
    simp only [qmax]
    rcases le_total x (qmax (y :: xs)) with h | h
    · simp [max_eq_right h]
      right
      simpa using ih
    · simp [max_eq_left h]

theorem le_qmax : ∀ (xs : List ℚ) (x : ℚ), x ∈ xs → x ≤ qmax xs
  | [y], x, hx => by simp at hx; simp [qmax, hx]
  | y :: z :: xs, x, hx => by
    simp only [List.mem_cons] at hx
    simp only [qmax]
    rcases hx with h | h
    · subst h; exact le_max_left _ _
    · exact le_trans (le_qmax (z :: xs) x (by simpa using h))
        (le_max_right _ _)

/-! ### C1 — inner spacing correction (`Figure.smart_tight_layout`, lines 486-507)

The tight-layout pass walks, for each inter-column space, the list of
touching groups found for that space.  A group is a pair of index sets
`l` / `r` into the per-axes-complex bounding-box span table (`xspans`).
For each group the code computes
`(min over r of span start - max over l of span end) / dpi`
and replaces the configured space with
`space_orig - min(seps) + pad`.  Row spaces are handled symmetrically with
`b` / `t` sets over `yspans`. -/

/-- Touching group across a column space: `l` holds span-table indices of the
axes on the left side of the space, `r` those on the right side
(Python dict `\x7b'l': \x7b...}, 'r': \x7b...}}`). -/
structure TGroupX where
  l : List Nat
  r : List Nat
deriving DecidableEq

/-- Touching group across a row space: `b` holds span-table indices of the
axes whose row range ends at the space, `t` those whose row range starts
there. -/
structure TGroupY where
  b : List Nat
  t : List Nat
deriving DecidableEq

/-- Separation, in inches, currently present between the two sides of a
touching group across a column space:
`(min(xspans[idx,0] for idx in r) - max(xspans[idx,1] for idx in l)) / dpi`. -/
def sepX (xspans : List (ℚ × ℚ)) (dpi : ℚ) (g : TGroupX) : ℚ :=
  let left := qmax (g.l.map (fun i => (xspans.getD i (0, 0)).2))
  let right := qmin (g.r.map (fun i => (xspans.getD i (0, 0)).1))
  (right - left) / dpi

/-- Separation, in inches, for a touching group across a row space
(display y grows upward, so the `b` side sits above the space):
`(min(yspans[idx,0] for idx in b) - max(yspans[idx,1] for idx in t)) / dpi`. -/
def sepY (yspans : List (ℚ × ℚ)) (dpi : ℚ) (g : TGroupY) : ℚ :=
  let bottom := qmin (g.b.map (fun i => (yspans.getD i (0, 0)).1))
  let top := qmax (g.t.map (fun i => (yspans.getD i (0, 0)).2))
  (bottom - top) / dpi

/-- The corrected `wspace` array: zip of the original spaces with the per-space
group lists; a space with no groups is kept, otherwise it becomes
`space_orig - min(seps) + pad`. -/
def correctWspace (pad dpi : ℚ) (xspans : List (ℚ × ℚ))
    (wspaceOrig : List ℚ) (xgroups : List (List TGroupX)) : List ℚ :=
  (wspaceOrig.zip xgroups).map (fun p =>
    if p.2.isEmpty then p.1
    else p.1 - qmin (p.2.map (sepX xspans dpi)) + pad)

/-- The corrected `hspace` array, symmetric to `correctWspace`. -/
def correctHspace (pad dpi : ℚ) (yspans : List (ℚ × ℚ))
    (hspaceOrig : List ℚ) (ygroups : List (List TGroupY)) : List ℚ :=
  (hspaceOrig.zip ygroups).map (fun p =>
    if p.2.isEmpty then p.1
    else p.1 - qmin (p.2.map (sepY yspans dpi)) + pad)

theorem correctWspace_getD (pad dpi : ℚ) (xspans : List (ℚ × ℚ)) :
    ∀ (ws : List ℚ) (gs : List (List TGroupX)) (i : Nat),
      i < ws.length → i < gs.length →
      (correctWspace pad dpi xspans ws gs).getD i 0 =
        if (gs.getD i []).isEmpty then ws.getD i 0
        else ws.getD i 0 - qmin ((gs.getD i []).map (sepX xspans dpi)) + pad
  | w :: ws, g :: gs, 0, _, _ => by simp [correctWspace]
  | w :: ws, g :: gs, i + 1, hi, hg => by
    have ih := correctWspace_getD pad dpi xspans ws gs i
      (by simpa using hi) (by simpa using hg)
    simpa [correctWspace] using ih

theorem correctHspace_getD (pad dpi : ℚ) (yspans : List (ℚ × ℚ)) :
    ∀ (hs : List ℚ) (gs : List (List TGroupY)) (i : Nat),
      i < hs.length → i < gs.length →
      (correctHspace pad dpi yspans hs gs).getD i 0 =
        if (gs.getD i []).isEmpty then hs.getD i 0
        else hs.getD i 0 - qmin ((gs.getD i []).map (sepY yspans dpi)) + pad
  | h :: hs, g :: gs, 0, _, _ => by simp [correctHspace]
  | h :: hs, g :: gs, i + 1, hi, hg => by
    have ih := correctHspace_getD pad dpi yspans hs gs i
      (by simpa using hi) (by simpa using hg)
    simpa [correctHspace] using ih

/-- C1: during a tight-layout pass, every inter-column space with at least one
touching group gets the new `wspace` entry
`original_spacing - (smallest separation over the groups sharing the space) + pad`:
the separation used is attained by some group and is a lower bound of all the
groups' separations (minimum wins); analogously for inter-row spaces and
`hspace`; and concretely, a space shared by two groups whose separations
measure 0.3in and 0.5in is corrected using 0.3in. -/
theorem C1_inner_spacing_min_wins :
    (∀ (pad dpi : ℚ) (xspans : List (ℚ × ℚ)) (ws : List ℚ)
       (xgs : List (List TGroupX)) (i : Nat),
       i < ws.length → i < xgs.length → xgs.getD i [] ≠ [] →
       ∃ s, s ∈ (xgs.getD i []).map (sepX xspans dpi) ∧
         (correctWspace pad dpi xspans ws xgs).getD i 0 = ws.getD i 0 - s + pad ∧
         ∀ s', s' ∈ (xgs.getD i []).map (sepX xspans dpi) → s ≤ s') ∧
    (∀ (pad dpi : ℚ) (yspans : List (ℚ × ℚ)) (hs : List ℚ)
       (ygs : List (List TGroupY)) (i : Nat),
       i < hs.length → i < ygs.length → ygs.getD i [] ≠ [] →
       ∃ s, s ∈ (ygs.getD i []).map (sepY yspans dpi) ∧
         (correctHspace pad dpi yspans hs ygs).getD i 0 = hs.getD i 0 - s + pad ∧
         ∀ s', s' ∈ (ygs.getD i []).map (sepY yspans dpi) → s ≤ s') ∧
    (∀ (pad so dpi : ℚ) (g1 g2 : TGroupX) (xspans : List (ℚ × ℚ)),
       sepX xspans dpi g1 = 3/10 → sepX xspans dpi g2 = 5/10 →
       (correctWspace pad dpi xspans [so] [[g1, g2]]).getD 0 0 = so - 3/10 + pad) := by
  refine ⟨?_, ?_, ?_⟩
  · intro pad dpi xspans ws xgs i hi hg hne
    refine ⟨qmin ((xgs.getD i []).map (sepX xspans dpi)), ?_, ?_, ?_⟩
    · exact qmin_mem _ (by simpa using hne)
    · rw [correctWspace_getD pad dpi xspans ws xgs i hi hg,
        if_neg (by simpa [List.isEmpty_iff] using hne)]
    · intro s' hs'
      exact qmin_le _ _ hs'
  · intro pad dpi yspans hs ygs i hi hg hne
    refine ⟨qmin ((ygs.getD i []).map (sepY yspans dpi)), ?_, ?_, ?_⟩
    · exact qmin_mem _ (by simpa using hne)
    · rw [correctHspace_getD pad dpi yspans hs ygs i hi hg,
        if_neg (by simpa [List.isEmpty_iff] using hne)]
    · intro s' hs'
      exact qmin_le _ _ hs'
  · intro pad so dpi g1 g2 xspans h1 h2
    simp [correctWspace, qmin, h1, h2]
    norm_num

/-- Witness for C1 at a concrete input: two touching groups over the span
table `[(0,1), (13/10,2), (0,1), (3/2,2)]` with dpi 1 give separations
3/10 and 1/2; the corrected space for `space_orig = 2`, `pad = 1/10` is
`2 - 3/10 + 1/10`. -/
theorem C1_inner_spacing_min_wins_witness :
    (correctWspace (1/10) 1 [((0:ℚ), (1:ℚ)), (13/10, 2), (0, 1), (3/2, 2)]
      [2] [[⟨[0], [1]⟩, ⟨[2], [3]⟩]]).getD 0 0 = 2 - 3/10 + 1/10 :=
  C1_inner_spacing_min_wins.2.2 (1/10) 2 1 ⟨[0], [1]⟩ ⟨[2], [3]⟩
    [((0:ℚ), (1:ℚ)), (13/10, 2), (0, 1), (3/2, 2)]
    (by norm_num [sepX, qmin, qmax]) (by norm_num [sepX, qmin, qmax])

/-! ### C2 — failed-pass behaviour of the tight-layout machinery
(`Figure._auto_smart_tight_layout`, lines 318-337, and
`Figure.smart_tight_layout`, lines 357-383, 519-525)

`smart_tight_layout` bails out with only a warning in two situations: the
figure has no stored `_subplots_kw`/`_gridspec`, or the measured tight
bounding box contains a NaN.  In both bail-out branches the code sets
`self._smart_tight_init = False` before returning.  `_auto_smart_tight_layout`
(the entry point used by `draw`/`savefig`) runs the pass only while
`_smart_tight_init` is still `True`. -/

/-- Result of measuring the tight bounding box: either some coordinate is NaN,
or the four side deltas are finite values. -/
inductive BBoxMeasure
  | nan
  | finite (dleft dbottom dright dtop : ℚ)
deriving DecidableEq

/-- The state the tight-layout machinery reads and writes on a figure:
the `tight`/`auto_adjust` toggle, the `_smart_tight_init` flag, presence of
the stored recipe and gridspec, the cartopy-gridliner opt-out, and a count of
gridspec/figure-size mutations actually applied. -/
structure FigState where
  smartTight : Bool
  smartTightInit : Bool
  hasSubplotsKw : Bool
  hasGridspec : Bool
  gridlinerOn : Bool
  gridspecUpdates : Nat
deriving DecidableEq

/-- One call of `Figure.smart_tight_layout`: missing recipe/gridspec or a NaN
bounding box warn, clear `_smart_tight_init` and return without touching the
grid; otherwise the corrected gridspec and figure size are applied and
`_smart_tight_init` is cleared. -/
def smartTightLayout (st : FigState) (m : BBoxMeasure) : FigState :=
  if !st.hasSubplotsKw || !st.hasGridspec then
    { st with smartTightInit := false }
  else
    match m with
    | .nan => { st with smartTightInit := false }
    | .finite _ _ _ _ =>
      { st with smartTightInit := false,
                gridspecUpdates := st.gridspecUpdates + 1 }

/-- Whether `_auto_smart_tight_layout` will actually enter the tight-layout
pass from state `st` (it returns early when the pass already ran or was
disabled, when `tight` is off, or when a cartopy gridliner is present). -/
def attemptsPass (st : FigState) : Bool :=
  st.smartTightInit && st.smartTight && !st.gridlinerOn

/-- One call of `Figure._auto_smart_tight_layout`, as performed by every
`draw` and `savefig`. -/
def autoSmartTightLayout (st : FigState) (m : BBoxMeasure) : FigState :=
  if attemptsPass st then smartTightLayout st m else st

/-- C2 counterexample: starting from a fresh figure (recipe and gridspec
present, tight layout enabled), a draw whose bounding-box measurement has a
NaN skips the pass without mutating the grid — but it leaves the figure in a
state from which the next draw does *not* attempt the pass again, and a
subsequent draw with a finite measurement still performs no mutation.  This
refutes the claim that the skip does not permanently disable tightening. -/
theorem C2_failed_pass_counterexample :
    (autoSmartTightLayout ⟨true, true, true, true, false, 0⟩ .nan).gridspecUpdates = 0 ∧
    attemptsPass (autoSmartTightLayout ⟨true, true, true, true, false, 0⟩ .nan) = false ∧
    autoSmartTightLayout (autoSmartTightLayout ⟨true, true, true, true, false, 0⟩ .nan)
      (.finite 0 0 0 0) =
      autoSmartTightLayout ⟨true, true, true, true, false, 0⟩ .nan := by
  decide

/-- C2 as amended: when the tight-layout pass fails (NaN bounding box, or
missing `_subplots_kw`/`_gridspec`), it is skipped with a warning and no grid
or figure-size mutation happens — but the skip clears `_smart_tight_init`, so
no subsequent draw or savefig ever attempts the tight-layout pass again: the
skip permanently disables tightening. -/
theorem C2_failed_pass_disables (st : FigState) (m : BBoxMeasure)
    (hfail : m = .nan ∨ st.hasSubplotsKw = false ∨ st.hasGridspec = false) :
    (smartTightLayout st m).gridspecUpdates = st.gridspecUpdates ∧
    (smartTightLayout st m).smartTightInit = false ∧
    ∀ m', attemptsPass (smartTightLayout st m) = false ∧
      autoSmartTightLayout (smartTightLayout st m) m' = smartTightLayout st m := by
  have hskip : smartTightLayout st m = { st with smartTightInit := false } := by
    rcases hfail with h | h | h
    · subst h
      unfold smartTightLayout
      split <;> rfl
    · simp [smartTightLayout, h]
    · simp [smartTightLayout, h]
  refine ⟨by rw [hskip], by rw [hskip], fun m' => ?_⟩
  have hatt : attemptsPass (smartTightLayout st m) = false := by
    rw [hskip]; simp [attemptsPass]
  exact ⟨hatt, by simp [autoSmartTightLayout, hatt]⟩

/-- Witness for C2 at a concrete failing state and a concrete follow-up
measurement. -/
theorem C2_failed_pass_disables_witness :
    (smartTightLayout ⟨true, true, true, true, false, 0⟩ .nan).gridspecUpdates = 0 ∧
    (smartTightLayout ⟨true, true, true, true, false, 0⟩ .nan).smartTightInit = false ∧
    attemptsPass (smartTightLayout ⟨true, true, true, true, false, 0⟩ .nan) = false ∧
    autoSmartTightLayout (smartTightLayout ⟨true, true, true, true, false, 0⟩ .nan)
        (.finite 0 0 0 0) =
      smartTightLayout ⟨true, true, true, true, false, 0⟩ .nan :=
  ⟨(C2_failed_pass_disables ⟨true, true, true, true, false, 0⟩ .nan (Or.inl rfl)).1,
   (C2_failed_pass_disables ⟨true, true, true, true, false, 0⟩ .nan (Or.inl rfl)).2.1,
   ((C2_failed_pass_disables ⟨true, true, true, true, false, 0⟩ .nan (Or.inl rfl)).2.2
     (.finite 0 0 0 0)).1,
   ((C2_failed_pass_disables ⟨true, true, true, true, false, 0⟩ .nan (Or.inl rfl)).2.2
     (.finite 0 0 0 0)).2⟩

/-! ### C3 — figure-size derivation (`_subplots_kwargs`, lines 868-961, 1005)

The builder receives resolved physical quantities (the `units`/defaulting
layer is the identity on already-resolved inch values), broadcasts
length-one ratio/space arrays, and derives the missing figure dimensions.
The Python mutation sequence is translated into single-assignment `let`
bindings, one per assignment, in program order. -/

/-- Length-one arrays broadcast to `n` entries (`np.repeat` after
`np.atleast_1d`). -/
def broadcast1 (xs : List ℚ) (n : Nat) : List ℚ :=
  if xs.length = 1 then List.replicate n (xs.headD 0) else xs

/-- Resolved arguments of `_subplots_kwargs` that participate in the
figure-size computation.  `width`/`height`/`axwidth`/`axheight` are `none`
when the caller did not supply them; panel flags mirror the truthiness of
`bottompanels`/`rightpanels`/`leftpanels`; `axwidthDefault` is
`rc['gridspec.axwidth']`. -/
structure SubplotsArgs where
  nrows : Nat
  ncols : Nat
  aspect : ℚ
  wextra : ℚ
  hextra : ℚ
  width : Option ℚ
  height : Option ℚ
  axwidth : Option ℚ
  axheight : Option ℚ
  wspace : List ℚ
  hspace : List ℚ
  wratios : List ℚ
  hratios : List ℚ
  left : ℚ
  bottom : ℚ
  right : ℚ
  top : ℚ
  bottompanels : Bool
  rightpanels : Bool
  leftpanels : Bool
  bwidth : ℚ
  bspace : ℚ
  rwidth : ℚ
  rspace : ℚ
  lwidth : ℚ
  lspace : ℚ
  axwidthDefault : ℚ

/-- The figure size `(width, height)` computed by `_subplots_kwargs`
(the `figsize` of its return triple), or the "Not enough room for axes"
error.  Each `let` mirrors one Python assignment, in program order. -/
def subplotsFigsize (a : SubplotsArgs) : Except String (ℚ × ℚ) :=
  let wspace := broadcast1 a.wspace (a.ncols - 1)
  let hspace := broadcast1 a.hspace (a.nrows - 1)
  let wratios := broadcast1 a.wratios a.ncols
  let hratios := broadcast1 a.hratios a.nrows
  let autoBoth := a.width.isNone && a.height.isNone
  let autoWidth0 := a.width.isNone && a.height.isSome
  let autoHeight0 := a.height.isNone && a.width.isSome
  let autoNeither := a.width.isSome && a.height.isSome
  let bps : ℚ := if a.bottompanels then a.bwidth + a.bspace else 0
  let rps : ℚ := if a.rightpanels then a.rwidth + a.rspace else 0
  let lps : ℚ := if a.leftpanels then a.lwidth + a.lspace else 0
  let axheights0 : ℚ :=
    if autoWidth0 || autoNeither then
      a.height.getD 0 - a.top - a.bottom - hspace.sum - bps
    else 0
  let axwidths0 : ℚ :=
    if autoHeight0 || autoNeither then
      a.width.getD 0 - a.left - a.right - wspace.sum - rps - lps
    else 0
  -- auto_both block (lines 930-943)
  let axwidth1 :=
    if autoBoth && a.axwidth.isNone && a.axheight.isNone then some a.axwidthDefault
    else a.axwidth
  let height1 :=
    if autoBoth && a.axheight.isSome then
      some (a.axheight.getD 0 * (a.nrows : ℚ) + a.top + a.bottom + hspace.sum + bps)
    else a.height
  let axheights1 :=
    if autoBoth && a.axheight.isSome then a.axheight.getD 0 * (a.nrows : ℚ) else axheights0
  let autoWidth1 := if autoBoth && a.axheight.isSome then true else autoWidth0
  let width1 :=
    if autoBoth && axwidth1.isSome then
      some (axwidth1.getD 0 * (a.ncols : ℚ) + a.left + a.right + wspace.sum + rps + lps)
    else a.width
  let axwidths1 :=
    if autoBoth && axwidth1.isSome then axwidth1.getD 0 * (a.ncols : ℚ) else axwidths0
  let autoHeight1 := if autoBoth && axwidth1.isSome then true else autoHeight0
  let autoWidth2 :=
    if autoBoth && axwidth1.isSome && a.axheight.isSome then false else autoWidth1
  let autoHeight2 :=
    if autoBoth && axwidth1.isSome && a.axheight.isSome then false else autoHeight1
  -- automatic scaling branches (lines 947-956)
  let axwidths2 :=
    if autoWidth2 then
      let axh := axheights1 * hratios.headD 0 / hratios.sum
      let axw := (axh - a.hextra) * a.aspect + a.wextra
      axw * wratios.sum / wratios.headD 0
    else axwidths1
  let width2 :=
    if autoWidth2 then some (axwidths2 + a.left + a.right + wspace.sum + rps + lps)
    else width1
  let axheights2 :=
    if !autoWidth2 && autoHeight2 then
      let axw := axwidths1 * wratios.headD 0 / wratios.sum
      let axh := (axw - a.wextra) / a.aspect + a.hextra
      axh * hratios.sum / hratios.headD 0
    else axheights1
  let height2 :=
    if !autoWidth2 && autoHeight2 then
      some (axheights2 + a.top + a.bottom + hspace.sum + bps)
    else height1
  -- feasibility checks (lines 958-961)
  if axwidths2 < 0 then .error "Not enough room for axes: width"
  else if axheights2 < 0 then .error "Not enough room for axes: height"
  else .ok (width2.getD 0, height2.getD 0)

/-- C3 counterexample: with `nrows=2, ncols=2, aspect=1, axwidth=2in,
wspace=0.3in, hspace=0.5in, left=0.5in, right=0.3in, top=0.3in, bottom=0.5in`
and no panels, `_subplots_kwargs` computes figure width
`2*2 + 0.5 + 0.3 + 0.3 = 5.1in`, which is not within 0.1in of the claimed
4.9in. -/
theorem C3_figwidth_counterexample :
    ∃ r, subplotsFigsize
        { nrows := 2, ncols := 2, aspect := 1, wextra := 0, hextra := 0,
          width := none, height := none, axwidth := some 2, axheight := none,
          wspace := [3/10], hspace := [1/2], wratios := [1], hratios := [1],
          left := 1/2, bottom := 1/2, right := 3/10, top := 3/10,
          bottompanels := false, rightpanels := false, leftpanels := false,
          bwidth := 0, bspace := 0, rwidth := 0, rspace := 0,
          lwidth := 0, lspace := 0, axwidthDefault := 2 } = .ok r ∧
      r.1 = 51/10 ∧ ¬|r.1 - 49/10| ≤ 1/10 := by
  refine ⟨(51/10, 53/10), ?_, rfl, ?_⟩
  · norm_num [subplotsFigsize, broadcast1, List.replicate]
  · rw [show |(51:ℚ)/10 - 49/10| = 1/5 from by
      rw [show (51:ℚ)/10 - 49/10 = 1/5 by norm_num]
      exact abs_of_nonneg (by norm_num)]
    norm_num

/-- C3 as amended: when only `axwidth` is given (no explicit figure width or
height, no `axheight`), for any combination of outer panels the computed
figure width equals
`axwidth * ncols + left + right + sum(wspace) + rpanel_space + lpanel_space`,
where `rpanel_space`/`lpanel_space` are the right/left outer-panel
width-plus-space when the corresponding panel is present and `0` otherwise;
for `nrows=2, ncols=2, aspect=1, axwidth=2in, wspace=0.3in, left=0.5in,
right=0.3in` and no panels this gives `5.1in` (the spec's figure of `4.9in`
miscomputes its own formula). -/
theorem C3_figwidth_formula (nrows ncols : Nat) (aspect wextra hextra : ℚ)
    (aw : ℚ) (wspace hspace wratios hratios : List ℚ)
    (left bottom right top : ℚ) (bp rp lp : Bool)
    (bw bs rw rs lw ls awd : ℚ) (r : ℚ × ℚ)
    (h : subplotsFigsize
        { nrows := nrows, ncols := ncols, aspect := aspect,
          wextra := wextra, hextra := hextra,
          width := none, height := none, axwidth := some aw, axheight := none,
          wspace := wspace, hspace := hspace,
          wratios := wratios, hratios := hratios,
          left := left, bottom := bottom, right := right, top := top,
          bottompanels := bp, rightpanels := rp, leftpanels := lp,
          bwidth := bw, bspace := bs, rwidth := rw, rspace := rs,
          lwidth := lw, lspace := ls, axwidthDefault := awd } = .ok r) :
    r.1 = aw * (ncols : ℚ) + left + right + (broadcast1 wspace (ncols - 1)).sum +
      (if rp then rw + rs else 0) + (if lp then lw + ls else 0) := by
  simp only [subplotsFigsize] at h
  simp only [Option.isNone_none, Option.isSome_some, Option.isSome_none,
    Bool.and_true, Bool.and_false, Bool.true_and, Bool.false_and,
    Bool.or_false, Bool.false_or, if_true, if_false, Bool.not_false,
    Option.getD_some, Option.getD_none, ite_true, ite_false,
    Bool.and_self, cond_true, cond_false] at h
  norm_num at h
  split at h
  · exact absurd h (by simp)
  · split at h
    · exact absurd h (by simp)
    · injection h with h2
      rw [← h2]

/-- Witness for C3 at the concrete sizing of Scenario A augmented with a
right outer panel (width 1/2, space 1/10) and a left outer panel (width 2/5,
space 1/10): the figure width is
`2*2 + 1/2 + 3/10 + 3/10 + (1/2 + 1/10) + (2/5 + 1/10) = 31/5`. -/
theorem C3_figwidth_formula_witness :
    ((31:ℚ)/5, (53:ℚ)/10).1 = 2 * ((2:Nat) : ℚ) + 1/2 + 3/10 +
      (broadcast1 [3/10] ((2:Nat) - 1)).sum +
      (if true then (1:ℚ)/2 + 1/10 else 0) +
      (if true then (2:ℚ)/5 + 1/10 else 0) :=
  C3_figwidth_formula 2 2 1 0 0 2 [3/10] [1/2] [1] [1] (1/2) (1/2) (3/10) (3/10)
    false true true 0 0 (1/2) (1/10) (2/5) (1/10) 2 ((31:ℚ)/5, (53:ℚ)/10)
    (by norm_num [subplotsFigsize, broadcast1, List.replicate])

/-! ### C4 — touching-group detection (`Figure.smart_tight_layout`, lines 436-484)

For every inter-column space `cspace = 1 .. ncols-1` the code scans **all**
rows `0 .. nrows-1`; for every inter-row space `rspace = 1 .. nrows-1` it
scans columns `1 .. ncols-1` (Python `range(1, ncols)`), i.e. it starts at
column 1.  `xrange`/`yrange` hold each axes complex's half-open column/row
cell spans (after the `+= 1` adjustment of lines 426-427). -/

/-- Python `set.update` on a list-modelled set: append the element unless
already present. -/
def insertIdx (l : List Nat) (x : Nat) : List Nat :=
  if x ∈ l then l else l ++ [x]

/-- Merge a newly found facing pair `(left, right)` into the per-space group
list: the first group already containing `left` on its left side or `right`
on its right side absorbs the pair, otherwise a new group is appended. -/
def addPairX : List TGroupX → Nat → Nat → List TGroupX
  | [], left, right => [⟨[left], [right]⟩]
  | g :: gs, left, right =>
    if left ∈ g.l || right ∈ g.r then
      ⟨insertIdx g.l left, insertIdx g.r right⟩ :: gs
    else g :: addPairX gs left right

/-- Merge a newly found facing pair `(bottom, top)` into a row-space group
list. -/
def addPairY : List TGroupY → Nat → Nat → List TGroupY
  | [], bottom, top => [⟨[bottom], [top]⟩]
  | g :: gs, bottom, top =>
    if bottom ∈ g.b || top ∈ g.t then
      ⟨insertIdx g.b bottom, insertIdx g.t top⟩ :: gs
    else g :: addPairY gs bottom top

/-- Touching groups for the inter-column space `cspace`: scan every row; when
exactly one axes complex's column range ends at `cspace` and exactly one
starts there (among those whose row range covers the row, the row being
covered by more than one complex), record the facing pair. -/
def xGroupsForGap (nrows : Nat) (xrange yrange : List (Nat × Nat))
    (cspace : Nat) : List TGroupX :=
  (List.range nrows).foldl (fun groups row =>
    let filt := (List.range xrange.length).filter (fun i =>
      (yrange.getD i (0, 0)).1 ≤ row && row < (yrange.getD i (0, 0)).2)
    if filt.length ≤ 1 then groups
    else
      let rightIdx := filt.filter (fun i => (xrange.getD i (0, 0)).1 == cspace)
      let leftIdx := filt.filter (fun i => (xrange.getD i (0, 0)).2 == cspace)
      if leftIdx.length == 1 && rightIdx.length == 1 then
        addPairX groups (leftIdx.headD 0) (rightIdx.headD 0)
      else groups) []

/-- Touching groups for the inter-row space `rspace`: the code scans columns
`1 .. ncols-1` only (Python `for col in range(1, ncols)`), with no
`filt`-cardinality guard. -/
def yGroupsForGap (ncols : Nat) (xrange yrange : List (Nat × Nat))
    (rspace : Nat) : List TGroupY :=
  (List.range' 1 (ncols - 1)).foldl (fun groups col =>
    let filt := (List.range xrange.length).filter (fun i =>
      (xrange.getD i (0, 0)).1 ≤ col && col < (xrange.getD i (0, 0)).2)
    let topIdx := filt.filter (fun i => (yrange.getD i (0, 0)).1 == rspace)
    let botIdx := filt.filter (fun i => (yrange.getD i (0, 0)).2 == rspace)
    if botIdx.length == 1 && topIdx.length == 1 then
      addPairY groups (botIdx.headD 0) (topIdx.headD 0)
    else groups) []

/-- All per-column-space group lists, one per `cspace in range(1, ncols)`. -/
def xGroupsAll (nrows ncols : Nat) (xrange yrange : List (Nat × Nat)) :
    List (List TGroupX) :=
  (List.range' 1 (ncols - 1)).map (xGroupsForGap nrows xrange yrange)

/-- All per-row-space group lists, one per `rspace in range(1, nrows)`. -/
def yGroupsAll (nrows ncols : Nat) (xrange yrange : List (Nat × Nat)) :
    List (List TGroupY) :=
  (List.range' 1 (nrows - 1)).map (yGroupsForGap ncols xrange yrange)

/-- C4 evaluated at the failing input (subplot array `[[1,2],[3,2]]`: axes 0
and 2 stacked in the leftmost column, axis 1 spanning both rows of column 1;
`xrange = [(0,1),(1,2),(0,1)]`, `yrange = [(0,1),(0,2),(1,2)]`): the row-gap
scan starts at column 1 and never examines column 0, so the code finds no
touching group for the row gap even though axes 0 and 2 face each other
there, while the transposed layout `[[1,3],[2,2]]`
(`xrange = [(0,1),(0,2),(1,2)]`, `yrange = [(0,1),(1,2),(0,1)]`) shows the
column-gap scan does examine its first (row 0) position and finds the
analogous group `⟨l = [0], r = [2]⟩`.
The code therefore misses all touching pairs confined to the leftmost
column, contradicting the claim that every grid position is covered. -/
theorem C4_row_gap_skips_first_column :
    yGroupsAll 2 2 [(0, 1), (1, 2), (0, 1)] [(0, 1), (0, 2), (1, 2)] = [[]] ∧
    xGroupsAll 2 2 [(0, 1), (0, 2), (1, 2)] [(0, 1), (1, 2), (0, 1)] =
      [[⟨[0], [2]⟩]] := by
  decide

/-! ### C5 — twin-axis limit locking (`Figure._lock_twins`, lines 152-190)

The x branch of the loop reads the local variable `ylim_orig`:
`xlim = transform.inverted().transform(np.array(ylim_orig))`.
`ylim_orig` is only ever assigned inside the *y* branch, so on an axis with a
dual x scale the name is undefined unless some earlier axis's y branch ran
(in which case a stale value is read).  The embedding threads an environment
holding the value of `ylim_orig`, `none` meaning "not yet assigned"
(a Python `NameError` on read). -/

/-- Axis scale kinds distinguished by the `check` helper of `_lock_twins`. -/
inductive AxScale
  | linear
  | log
  | inverse
  | height
deriving DecidableEq

/-- The `check` helper: `True` means the `ValueError` is raised
(log or inverse scale with a limit ≤ 0, height scale with a limit above
1013.25 hPa). -/
def checkLim (lim : ℚ × ℚ) (scale : AxScale) : Bool :=
  match scale with
  | .log => lim.1 ≤ 0 || lim.2 ≤ 0
  | .inverse => lim.1 ≤ 0 || lim.2 ≤ 0
  | .height => 4053/4 < lim.1 || 4053/4 < lim.2
  | .linear => false

/-- `np.sign`. -/
def qsign (x : ℚ) : ℚ :=
  if 0 < x then 1 else if x < 0 then -1 else 0

/-- One main axis as `_lock_twins` sees it: the registered dual-scale pairs
`(offset, scale)`, the primary limits, the twin axes' scale kinds, and the
inverse of each twin's scale transform
(`twin.xaxis._scale.get_transform().inverted()`). -/
structure DualAxis where
  dualxScale : Option (ℚ × ℚ)
  dualyScale : Option (ℚ × ℚ)
  xlim : ℚ × ℚ
  ylim : ℚ × ℚ
  twinXScale : AxScale
  twinYScale : AxScale
  twinXInv : ℚ → ℚ
  twinYInv : ℚ → ℚ

/-- Errors `_lock_twins` can raise: the `NameError` from reading the
undefined `ylim_orig`, or the `ValueError` from `check`. -/
inductive LockErr
  | nameErr
  | valueErr
deriving DecidableEq

/-- Limits set on an axis's twins by one loop iteration. -/
structure LockOut where
  twinXlim : Option (ℚ × ℚ)
  twinYlim : Option (ℚ × ℚ)
deriving DecidableEq

/-- One iteration of the `_lock_twins` loop for axis `ax`, with `env` the
current value of the local `ylim_orig` (`none` = unassigned).  The x branch
faithfully reads `ylim_orig` where the claim expects `xlim_orig`. -/
def lockAxis (env : Option (ℚ × ℚ)) (ax : DualAxis) :
    Except LockErr (Option (ℚ × ℚ) × LockOut) := do
  let txl : Option (ℚ × ℚ) ←
    match ax.dualxScale with
    | none => pure none
    | some (off, sc) =>
      let xlimOrig := ax.xlim
      if checkLim xlimOrig ax.twinXScale then throw .valueErr
      else
        match env with
        | none => throw .nameErr
        | some ylimOrig =>
          let xlim := (ax.twinXInv ylimOrig.1, ax.twinXInv ylimOrig.2)
          let xlim :=
            if qsign (xlimOrig.2 - xlimOrig.1) ≠ qsign (xlim.2 - xlim.1) then
              (xlim.2, xlim.1)
            else xlim
          pure (some (off + sc * xlim.1, off + sc * xlim.2))
  match ax.dualyScale with
  | none => pure (env, ⟨txl, none⟩)
  | some (off, sc) =>
    let ylimOrig := ax.ylim
    if checkLim ylimOrig ax.twinYScale then throw .valueErr
    else
      let ylim := (ax.twinYInv ylimOrig.1, ax.twinYInv ylimOrig.2)
      let ylim :=
        if qsign (ylimOrig.2 - ylimOrig.1) ≠ qsign (ylim.2 - ylim.1) then
          (ylim.2, ylim.1)
        else ylim
      pure (some ylimOrig, ⟨txl, some (off + sc * ylim.1, off + sc * ylim.2)⟩)

/-- The full `_lock_twins` loop over the figure's main axes, starting with
`ylim_orig` unassigned. -/
def lockTwins (axs : List DualAxis) : Except LockErr (List LockOut) := do
  let mut env : Option (ℚ × ℚ) := none
  let mut outs : List LockOut := []
  for ax in axs do
    let (env', out) ← lockAxis env ax
    env := env'
    outs := outs ++ [out]
  pure outs

/-- C5 evaluated at the failing input: a figure whose only main axis carries a
dual x scale (offset 0, scale 1, identity transform, linear twin scale,
x-limits (1,2)) makes `_lock_twins` read the never-assigned `ylim_orig` and
fail with a `NameError`, instead of recomputing the twin's x-limits from the
primary's x-limits as the claim states; the symmetric y branch, which reads
the correctly assigned `ylim_orig`, does produce the claimed limits, and a
dual-x axis that follows a dual-y axis silently uses the *previous axis's*
y-limits rather than its own x-limits. -/
theorem C5_dualx_undefined_ylim :
    lockTwins [{ dualxScale := some (0, 1), dualyScale := none,
                 xlim := (1, 2), ylim := (0, 0),
                 twinXScale := .linear, twinYScale := .linear,
                 twinXInv := id, twinYInv := id }] = .error .nameErr ∧
    lockTwins [{ dualxScale := none, dualyScale := some (10, 2),
                 xlim := (0, 0), ylim := (1, 2),
                 twinXScale := .linear, twinYScale := .linear,
                 twinXInv := id, twinYInv := id }] =
      .ok [⟨none, some (10 + 2 * 1, 10 + 2 * 2)⟩] ∧
    lockTwins [{ dualxScale := none, dualyScale := some (0, 1),
                 xlim := (0, 0), ylim := (5, 7),
                 twinXScale := .linear, twinYScale := .linear,
                 twinXInv := id, twinYInv := id },
               { dualxScale := some (0, 1), dualyScale := none,
                 xlim := (1, 2), ylim := (0, 0),
                 twinXScale := .linear, twinYScale := .linear,
                 twinXInv := id, twinYInv := id }] =
      .ok [⟨none, some (5, 7)⟩, ⟨some (5, 7), none⟩] := by
  refine ⟨rfl, ?_, ?_⟩ <;>
    (norm_num [lockTwins, lockAxis, checkLim, qsign]; rfl)

/-! ### C6 — subplot-array validation and spans (`subplots`, lines 1335-1341
and 1459-1463)

`nums = np.unique(array[array != 0])` must equal `{1, ..., len(nums)}` as a
set, else a `ValueError` is raised; each axis id `k` is then assigned the
bounding half-open row span `(rows.min(), rows.max()+1)` and column span
`(cols.min(), cols.max()+1)` over the cells `np.where(array == k)`. -/

/-- Minimum of a list of naturals, `0` on the empty list. -/
def nmin : List Nat → Nat
  | [] => 0
  | [x] => x
  | x :: y :: xs => min x (nmin (y :: xs))

/-- Maximum of a list of naturals, `0` on the empty list. -/
def nmax : List Nat → Nat
  | [] => 0
  | [x] => x
  | x :: y :: xs => max x (nmax (y :: xs))

theorem nmin_mem : ∀ (xs : List Nat), xs ≠ [] → nmin xs ∈ xs
  | [x], _ => by simp [nmin]
  | x :: y :: xs, _ => by
    have ih := nmin_mem (y :: xs) (by simp)
    simp only [nmin]
    rcases le_total x (nmin (y :: xs)) with h | h
    · simp [min_eq_left h]
    · simp [min_eq_right h]
      right
      simpa using ih

theorem nmin_le : ∀ (xs : List Nat) (x : Nat), x ∈ xs → nmin xs ≤ x
  | [y], x, hx => by simp at hx; simp [nmin, hx]
  | y :: z :: xs, x, hx => by
    simp only [List.mem_cons] at hx
    simp only [nmin]
    rcases hx with h | h
    · subst h; exact min_le_left _ _
    · exact le_trans (min_le_right _ _)
        (nmin_le (z :: xs) x (by simpa using h))

theorem nmax_mem : ∀ (xs : List Nat), xs ≠ [] → nmax xs ∈ xs
  | [x], _ => by simp [nmax]
  | x :: y :: xs, _ => by
    have ih := nmax_mem (y :: xs) (by simp)
    simp only [nmax]
    rcases le_total x (nmax (y :: xs)) with h | h
    · simp [max_eq_right h]
      right
      simpa using ih
    · simp [max_eq_left h]

theorem le_nmax : ∀ (xs : List Nat) (x : Nat), x ∈ xs → x ≤ nmax xs
  | [y], x, hx => by simp at hx; simp [nmax, hx]
  | y :: z :: xs, x, hx => by
    simp only [List.mem_cons] at hx
    simp only [nmax]
    rcases hx with h | h
    · subst h; exact le_max_left _ _
    · exact le_trans (le_nmax (z :: xs) x (by simpa using h))
        (le_max_right _ _)

/-- The `(row, column)` cells of axis id `k` in the subplot array
(`np.where(array == k)`). -/
def axisCells (array : List (List Int)) (k : Int) : List (Nat × Nat) :=
  (array.enum.map (fun rc =>
    (rc.2.enum.filterMap (fun cv =>
      if cv.2 == k then some (rc.1, cv.1) else none)))).flatten

/-- The validation of the subplot array: the distinct nonzero values must be
exactly the set `\x7b1, ..., N}` where `N` is their count (mutual inclusion
of the two sets, the distinct values being `np.unique`'s output). -/
def validNums (array : List (List Int)) : Bool :=
  let nums := (array.flatten.filter (fun v => v != 0)).dedup
  let n := nums.length
  nums.all (fun v => 1 ≤ v && v ≤ (n : Int)) &&
    (List.range n).all (fun i => nums.contains ((i : Int) + 1))

/-- Half-open bounding row span of axis `k`:
`[y.min(), y.max()+1)` over its cells. -/
def yrangeOf (array : List (List Int)) (k : Int) : Nat × Nat :=
  let rs := (axisCells array k).map Prod.fst
  (nmin rs, nmax rs + 1)

/-- Half-open bounding column span of axis `k`:
`[x.min(), x.max()+1)` over its cells. -/
def xrangeOf (array : List (List Int)) (k : Int) : Nat × Nat :=
  let cs := (axisCells array k).map Prod.snd
  (nmin cs, nmax cs + 1)

/-- C6: the array `[[1,4]]` fails validation while `[[1,1],[2,3]]` passes and
yields axis 1 spanning row 0, columns 0-1, axis 2 row 1 column 0, axis 3
row 1 column 1; and in general every footprint cell of an axis id lies inside
the computed half-open spans, whose endpoints are attained by actual cells
(the spans are the bounding box of the footprint). -/
theorem C6_array_validation :
    validNums [[1, 4]] = false ∧
    validNums [[1, 1], [2, 3]] = true ∧
    (yrangeOf [[1, 1], [2, 3]] 1 = (0, 1) ∧ xrangeOf [[1, 1], [2, 3]] 1 = (0, 2) ∧
     yrangeOf [[1, 1], [2, 3]] 2 = (1, 2) ∧ xrangeOf [[1, 1], [2, 3]] 2 = (0, 1) ∧
     yrangeOf [[1, 1], [2, 3]] 3 = (1, 2) ∧ xrangeOf [[1, 1], [2, 3]] 3 = (1, 2)) ∧
    (∀ (array : List (List Int)) (k : Int) (r c : Nat),
       (r, c) ∈ axisCells array k →
       (yrangeOf array k).1 ≤ r ∧ r < (yrangeOf array k).2 ∧
       (xrangeOf array k).1 ≤ c ∧ c < (xrangeOf array k).2) ∧
    (∀ (array : List (List Int)) (k : Int),
       axisCells array k ≠ [] →
       (yrangeOf array k).1 ∈ (axisCells array k).map Prod.fst ∧
       (yrangeOf array k).2 = nmax ((axisCells array k).map Prod.fst) + 1 ∧
       nmax ((axisCells array k).map Prod.fst) ∈ (axisCells array k).map Prod.fst ∧
       (xrangeOf array k).1 ∈ (axisCells array k).map Prod.snd ∧
       (xrangeOf array k).2 = nmax ((axisCells array k).map Prod.snd) + 1 ∧
       nmax ((axisCells array k).map Prod.snd) ∈ (axisCells array k).map Prod.snd) := by
  refine ⟨by decide, by decide, by decide, ?_, ?_⟩
  · intro array k r c hmem
    have hr : r ∈ (axisCells array k).map Prod.fst :=
      List.mem_map.mpr ⟨(r, c), hmem, rfl⟩
    have hc : c ∈ (axisCells array k).map Prod.snd :=
      List.mem_map.mpr ⟨(r, c), hmem, rfl⟩
    exact ⟨nmin_le _ _ hr, Nat.lt_succ_of_le (le_nmax _ _ hr),
      nmin_le _ _ hc, Nat.lt_succ_of_le (le_nmax _ _ hc)⟩
  · intro array k hne
    have hne1 : (axisCells array k).map Prod.fst ≠ [] := by
      simpa using hne
    have hne2 : (axisCells array k).map Prod.snd ≠ [] := by
      simpa using hne
    exact ⟨nmin_mem _ hne1, rfl, nmax_mem _ hne1,
      nmin_mem _ hne2, rfl, nmax_mem _ hne2⟩

/-- Witness for C6's general clauses at the concrete array `[[1,1],[2,3]]`,
axis 1, cell `(0,1)`. -/
theorem C6_array_validation_witness :
    ((yrangeOf [[1, 1], [2, 3]] 1).1 ≤ 0 ∧ 0 < (yrangeOf [[1, 1], [2, 3]] 1).2 ∧
     (xrangeOf [[1, 1], [2, 3]] 1).1 ≤ 1 ∧ 1 < (xrangeOf [[1, 1], [2, 3]] 1).2) ∧
    (yrangeOf [[1, 1], [2, 3]] 1).1 ∈ (axisCells [[1, 1], [2, 3]] 1).map Prod.fst :=
  ⟨C6_array_validation.2.2.2.1 [[1, 1], [2, 3]] 1 0 1 (by decide),
   (C6_array_validation.2.2.2.2 [[1, 1], [2, 3]] 1 (by decide)).1⟩

/-! ### C7 — panel layout infeasibility (`Figure.panel_factory`, lines 662-694)

With the parent cell's physical width `boxwidth`, the code computes
`width = boxwidth - wspace.sum()` and the main-axes entry
`width - wwidth*(ncols-1)`; it raises `ValueError` when that entry is
strictly negative (`< 0`) and otherwise builds the ratio list with the panel
columns set to `wwidth`.  Heights are handled identically. -/

/-- Column width ratios built by `panel_factory`, or the "panel wwidth is too
large" error: the check fires exactly on a strictly negative main-axes
width. -/
def panelWRatios (boxwidth : ℚ) (wspace : List ℚ) (wwidth : ℚ) (ncols : Nat)
    (mainCol : Nat) : Except String (List ℚ) :=
  let width := boxwidth - wspace.sum
  let main := width - wwidth * ((ncols : ℚ) - 1)
  if main < 0 then .error "Panel wwidth is too large."
  else .ok ((List.range ncols).map (fun i => if i == mainCol then main else wwidth))

/-- Row height ratios built by `panel_factory`, symmetric to
`panelWRatios`. -/
def panelHRatios (boxheight : ℚ) (hspace : List ℚ) (hwidth : ℚ) (nrows : Nat)
    (mainRow : Nat) : Except String (List ℚ) :=
  let height := boxheight - hspace.sum
  let main := height - hwidth * ((nrows : ℚ) - 1)
  if main < 0 then .error "Panel hwidth is too large."
  else .ok ((List.range nrows).map (fun i => if i == mainRow then main else hwidth))

/-- C7 counterexample: a right panel of width 3in inside a parent cell of
physical width 3in (no panel spacing) leaves the main axes with computed
width exactly 0 — non-positive — yet `panel_factory` raises no error and
returns the degenerate ratio list `[0, 3]`.  This refutes the claim that a
non-positive computed main-axes width fails; the code only rejects strictly
negative widths. -/
theorem C7_zero_width_counterexample :
    ((3:ℚ) - ([(0:ℚ)]).sum - 3 * (((2:Nat) : ℚ) - 1) ≤ 0) ∧
    panelWRatios 3 [0] 3 2 0 = .ok [0, 3] := by
  constructor
  · norm_num
  · norm_num [panelWRatios, List.range, List.range.loop]

/-- C7 as amended: `panel_factory` fails with the layout-infeasibility
`ValueError` exactly when the computed main-axes width (parent cell width
minus panel spacing minus `wwidth*(ncols-1)`) is strictly negative, and
likewise for heights; in particular a right panel 5in wide inside a parent
cell of physical width 3in (any non-negative panel spacing) fails. -/
theorem C7_negative_width_fails (boxwidth wwidth boxheight hwidth : ℚ)
    (wspace hspace : List ℚ) (ncols nrows mainCol mainRow : Nat) (s : ℚ)
    (hs : 0 ≤ s) :
    ((∃ e, panelWRatios boxwidth wspace wwidth ncols mainCol = .error e) ↔
      boxwidth - wspace.sum - wwidth * ((ncols : ℚ) - 1) < 0) ∧
    ((∃ e, panelHRatios boxheight hspace hwidth nrows mainRow = .error e) ↔
      boxheight - hspace.sum - hwidth * ((nrows : ℚ) - 1) < 0) ∧
    (∃ e, panelWRatios 3 [s] 5 2 0 = .error e) := by
  refine ⟨?_, ?_, ?_⟩
  · by_cases h : boxwidth - wspace.sum - wwidth * ((ncols : ℚ) - 1) < 0
    · simp only [panelWRatios, if_pos h]
      exact ⟨fun _ => h, fun _ => ⟨_, rfl⟩⟩
    · simp only [panelWRatios, if_neg h]
      exact ⟨fun he => absurd he.choose_spec (by simp), fun hc => absurd hc h⟩
  · by_cases h : boxheight - hspace.sum - hwidth * ((nrows : ℚ) - 1) < 0
    · simp only [panelHRatios, if_pos h]
      exact ⟨fun _ => h, fun _ => ⟨_, rfl⟩⟩
    · simp only [panelHRatios, if_neg h]
      exact ⟨fun he => absurd he.choose_spec (by simp), fun hc => absurd hc h⟩
  · have h : (3:ℚ) - ([s]).sum - 5 * (((2:Nat) : ℚ) - 1) < 0 := by
      simp
      linarith
    simp only [panelWRatios, if_pos h]
    exact ⟨_, rfl⟩

/-- Witness for C7 at panel spacing 0. -/
theorem C7_negative_width_fails_witness :
    ((∃ e, panelWRatios 3 [0] 5 2 0 = .error e) ↔
      (3:ℚ) - ([(0:ℚ)]).sum - 5 * (((2:Nat) : ℚ) - 1) < 0) ∧
    ((∃ e, panelHRatios 3 [0] 5 2 0 = .error e) ↔
      (3:ℚ) - ([(0:ℚ)]).sum - 5 * (((2:Nat) : ℚ) - 1) < 0) ∧
    (∃ e, panelWRatios 3 [0] 5 2 0 = .error e) :=
  C7_negative_width_fails 3 5 3 5 [0] [0] 2 2 0 0 0 le_rfl

/-! ### C8 — axis-sharing groups and bases (`subplots`, lines 1464-1486 and
1507-1527)

For x sharing the code loops over axes `i = 0 .. n-1`; `matching_axes` is the
set of `j` whose column range `xrange[j]` equals `xrange[i]` exactly
(broadcast `==` plus `.all(axis=1)`); if `i` was not grouped yet and the
match has more than one member, the match becomes a group whose base is
`matching_axes[np.argmax(yrange[matching_axes, 1])]` (first bottom-most
member).  y sharing is symmetric over `yrange` with base
`matching_axes[np.argmin(xrange[matching_axes, 0])]` (first left-most
member).  Wiring then connects every axis contained in exactly one group to
that group's base, skipping the base itself. -/

/-- Indices whose range equals that of index `i`
(`np.where((rng[i,:] == rng).all(axis=1))[0]`, in increasing order). -/
def matchingIdx (rng : List (Nat × Nat)) (i : Nat) : List Nat :=
  (List.range rng.length).filter (fun j => rng.getD j (0, 0) == rng.getD i (0, 0))

/-- The grouping loop after processing indices `0 .. n-1`: the groups found
so far and the `grouped` bookkeeping set (as a list). -/
def groupsAux (rng : List (Nat × Nat)) : Nat → List (List Nat) × List Nat
  | 0 => ([], [])
  | n + 1 =>
    let p := groupsAux rng n
    let m := matchingIdx rng n
    if n ∉ p.2 ∧ 1 < m.length then (p.1 ++ [m], p.2 ++ m)
    else (p.1, p.2 ++ m)

/-- All sharing groups over a range table (`xgroups` for x sharing when
applied to the column ranges, `ygroups` for y sharing on the row ranges). -/
def shareGroups (rng : List (Nat × Nat)) : List (List Nat) :=
  (groupsAux rng rng.length).1

/-- Index of the first maximum of a list (`np.argmax`), `0` on `[]`. -/
def argmaxNat : List Nat → Nat
  | [] => 0
  | [_] => 0
  | v :: w :: vs =>
    let r := argmaxNat (w :: vs)
    if v < (w :: vs).getD r 0 then r + 1 else 0

/-- Index of the first minimum of a list (`np.argmin`), `0` on `[]`. -/
def argminNat : List Nat → Nat
  | [] => 0
  | [_] => 0
  | v :: w :: vs =>
    let r := argminNat (w :: vs)
    if (w :: vs).getD r 0 < v then r + 1 else 0

/-- Base of an x-sharing group: the member whose row range ends furthest down,
`matching_axes[np.argmax(yrange[matching_axes, 1])]`. -/
def xBaseOf (yrng : List (Nat × Nat)) (g : List Nat) : Nat :=
  g.getD (argmaxNat (g.map (fun m => (yrng.getD m (0, 0)).2))) 0

/-- Base of a y-sharing group: the member whose column range starts furthest
left, `matching_axes[np.argmin(xrange[matching_axes, 0])]`. -/
def yBaseOf (xrng : List (Nat × Nat)) (g : List Nat) : Nat :=
  g.getD (argminNat (g.map (fun m => (xrng.getD m (0, 0)).1))) 0

/-- The x-sharing wiring loop for axis `i`: when `i` lies in exactly one
group, it is shared with that group's base unless it is the base itself. -/
def wireX (xrng yrng : List (Nat × Nat)) (i : Nat) : Option Nat :=
  match (shareGroups xrng).filter (fun g => decide (i ∈ g)) with
  | [g] => if xBaseOf yrng g = i then none else some (xBaseOf yrng g)
  | _ => none

/-- The y-sharing wiring loop for axis `i`. -/
def wireY (xrng yrng : List (Nat × Nat)) (i : Nat) : Option Nat :=
  match (shareGroups yrng).filter (fun g => decide (i ∈ g)) with
  | [g] => if yBaseOf xrng g = i then none else some (yBaseOf xrng g)
  | _ => none

theorem mem_matchingIdx (rng : List (Nat × Nat)) (i j : Nat) :
    j ∈ matchingIdx rng i ↔
      j < rng.length ∧ rng.getD j (0, 0) = rng.getD i (0, 0) := by
  simp [matchingIdx, List.mem_filter, List.mem_range]

theorem mem_groupsAux_grouped (rng : List (Nat × Nat)) :
    ∀ (n j : Nat), j ∈ (groupsAux rng n).2 ↔ ∃ i < n, j ∈ matchingIdx rng i := by
  intro n
  induction n with
  | zero => simp [groupsAux]
  | succ n ih =>
    intro j
    simp only [groupsAux]
    constructor
    · intro hj
      rcases (by
        by_cases hc : n ∉ (groupsAux rng n).2 ∧ 1 < (matchingIdx rng n).length
        · rw [if_pos hc] at hj
          exact List.mem_append.mp hj
        · rw [if_neg hc] at hj
          exact List.mem_append.mp hj :
          j ∈ (groupsAux rng n).2 ∨ j ∈ matchingIdx rng n) with h | h
      · obtain ⟨i, hi, hm⟩ := (ih j).mp h
        exact ⟨i, Nat.lt_succ_of_lt hi, hm⟩
      · exact ⟨n, Nat.lt_succ_self n, h⟩
    · rintro ⟨i, hi, hm⟩
      have : j ∈ (groupsAux rng n).2 ∨ j ∈ matchingIdx rng n := by
        rcases Nat.lt_succ_iff_lt_or_eq.mp hi with h | h
        · exact Or.inl ((ih j).mpr ⟨i, h, hm⟩)
        · subst h; exact Or.inr hm
      by_cases hc : n ∉ (groupsAux rng n).2 ∧ 1 < (matchingIdx rng n).length
      · rw [if_pos hc]
        exact List.mem_append.mpr this
      · rw [if_neg hc]
        exact List.mem_append.mpr this

theorem mem_groupsAux_groups (rng : List (Nat × Nat)) :
    ∀ (n : Nat) (g : List Nat), g ∈ (groupsAux rng n).1 →
      ∃ i < n, g = matchingIdx rng i ∧ i ∉ (groupsAux rng i).2 ∧
        1 < (matchingIdx rng i).length := by
  intro n
  induction n with
  | zero => simp [groupsAux]
  | succ n ih =>
    intro g hg
    simp only [groupsAux] at hg
    by_cases hc : n ∉ (groupsAux rng n).2 ∧ 1 < (matchingIdx rng n).length
    · rw [if_pos hc] at hg
      rcases List.mem_append.mp hg with h | h
      · obtain ⟨i, hi, h⟩ := ih g h
        exact ⟨i, Nat.lt_succ_of_lt hi, h⟩
      · simp only [List.mem_singleton] at h
        exact ⟨n, Nat.lt_succ_self n, h, hc.1, hc.2⟩
    · rw [if_neg hc] at hg
      obtain ⟨i, hi, h⟩ := ih g hg
      exact ⟨i, Nat.lt_succ_of_lt hi, h⟩

theorem groupsAux_groups_mono (rng : List (Nat × Nat)) :
    ∀ (m n : Nat), m ≤ n → ∀ g, g ∈ (groupsAux rng m).1 → g ∈ (groupsAux rng n).1 := by
  intro m n hmn
  induction n with
  | zero =>
    intro g hg
    rwa [Nat.le_zero.mp hmn] at hg
  | succ n ih =>
    intro g hg
    rcases Nat.le_succ_iff_eq_or_le.mp hmn with h | h
    · subst h
      exact hg
    · have := ih h g hg
      simp only [groupsAux]
      by_cases hc : n ∉ (groupsAux rng n).2 ∧ 1 < (matchingIdx rng n).length
      · rw [if_pos hc]
        exact List.mem_append_left _ this
      · rwa [if_neg hc]

theorem one_lt_length_of_mem_ne {a b : Nat} {l : List Nat}
    (ha : a ∈ l) (hb : b ∈ l) (hab : a ≠ b) : 1 < l.length := by
  match l with
  | [] => exact absurd ha (List.not_mem_nil a)
  | [x] =>
    simp only [List.mem_singleton] at ha hb
    exact absurd (ha.trans hb.symm) hab
  | x :: y :: t => simp [Nat.lt_of_sub_eq_succ]

/-- Characterization of a formed sharing group: it is the match list of a
least index carrying its range value, and it has more than one member. -/
theorem shareGroups_formed (rng : List (Nat × Nat)) (g : List Nat)
    (hg : g ∈ shareGroups rng) :
    ∃ k < rng.length, g = matchingIdx rng k ∧
      (∀ i', i' < k → rng.getD i' (0, 0) ≠ rng.getD k (0, 0)) ∧
      1 < g.length := by
  obtain ⟨k, hk, hgk, hnotin, hlen⟩ := mem_groupsAux_groups rng rng.length g hg
  refine ⟨k, hk, hgk, ?_, hgk ▸ hlen⟩
  intro i' hi' heq
  exact hnotin ((mem_groupsAux_grouped rng k k).mpr
    ⟨i', hi', (mem_matchingIdx rng i' k).mpr ⟨hk, heq.symm⟩⟩)

/-- Two distinct axes lie in a common sharing group exactly when their ranges
are equal. -/
theorem shareGroups_pair_iff (rng : List (Nat × Nat)) (i j : Nat)
    (hi : i < rng.length) (hj : j < rng.length) (hij : i ≠ j) :
    (∃ g ∈ shareGroups rng, i ∈ g ∧ j ∈ g) ↔
      rng.getD i (0, 0) = rng.getD j (0, 0) := by
  constructor
  · rintro ⟨g, hg, hgi, hgj⟩
    obtain ⟨k, _, hgk, _, _⟩ := shareGroups_formed rng g hg
    subst hgk
    exact ((mem_matchingIdx rng k i).mp hgi).2.trans
      ((mem_matchingIdx rng k j).mp hgj).2.symm
  · intro heq
    have hP : i < rng.length ∧ rng.getD i (0, 0) = rng.getD i (0, 0) := ⟨hi, rfl⟩
    let k := Nat.find (⟨i, hP⟩ :
      ∃ m, m < rng.length ∧ rng.getD m (0, 0) = rng.getD i (0, 0))
    have hk : k < rng.length ∧ rng.getD k (0, 0) = rng.getD i (0, 0) :=
      Nat.find_spec (⟨i, hP⟩ :
        ∃ m, m < rng.length ∧ rng.getD m (0, 0) = rng.getD i (0, 0))
    have hkle : k ≤ i := Nat.find_min' _ hP
    have hmin : ∀ m, m < k →
        ¬(m < rng.length ∧ rng.getD m (0, 0) = rng.getD i (0, 0)) :=
      fun m hm => Nat.find_min _ hm
    have hknotin : k ∉ (groupsAux rng k).2 := by
      intro hmem
      obtain ⟨i', hi', hmi'⟩ := (mem_groupsAux_grouped rng k k).mp hmem
      obtain ⟨-, heq'⟩ := (mem_matchingIdx rng i' k).mp hmi'
      exact hmin i' hi'
        ⟨Nat.lt_of_lt_of_le hi' (Nat.le_trans hkle (Nat.le_of_lt hi)),
         heq'.symm.trans hk.2⟩
    have him : i ∈ matchingIdx rng k :=
      (mem_matchingIdx rng k i).mpr ⟨hi, hk.2.symm⟩
    have hjm : j ∈ matchingIdx rng k :=
      (mem_matchingIdx rng k j).mpr ⟨hj, heq.symm.trans hk.2.symm⟩
    have hlen : 1 < (matchingIdx rng k).length :=
      one_lt_length_of_mem_ne him hjm hij
    have hgmem : matchingIdx rng k ∈ (groupsAux rng (k + 1)).1 := by
      simp only [groupsAux]
      rw [if_pos ⟨hknotin, hlen⟩]
      exact List.mem_append_right _ (List.mem_singleton.mpr rfl)
    exact ⟨matchingIdx rng k,
      groupsAux_groups_mono rng (k + 1) rng.length hk.1 _ hgmem, him, hjm⟩

/-- Invariant of the grouping loop: every member of a formed group is in the
`grouped` bookkeeping set, and no axis lies (positionally) in more than one
formed group. -/
theorem groupsAux_invariant (rng : List (Nat × Nat)) :
    ∀ (n : Nat), n ≤ rng.length →
      (∀ g ∈ (groupsAux rng n).1, ∀ j ∈ g, j ∈ (groupsAux rng n).2) ∧
      (∀ i, ((groupsAux rng n).1.filter (fun g => decide (i ∈ g))).length ≤ 1) := by
  intro n
  induction n with
  | zero => simp [groupsAux]
  | succ n ih =>
    intro hn
    obtain ⟨ihmem, ihuniq⟩ := ih (Nat.le_of_succ_le hn)
    by_cases hc : n ∉ (groupsAux rng n).2 ∧ 1 < (matchingIdx rng n).length
    · constructor
      · intro g hg j hj
        simp only [groupsAux, if_pos hc] at hg ⊢
        rcases List.mem_append.mp hg with h | h
        · exact List.mem_append_left _ (ihmem g h j hj)
        · simp only [List.mem_singleton] at h
          subst h
          exact List.mem_append_right _ hj
      · intro i
        simp only [groupsAux, if_pos hc, List.filter_append]
        by_cases hi : i ∈ matchingIdx rng n
        · have hnil : (groupsAux rng n).1.filter (fun g => decide (i ∈ g)) = [] := by
            rw [List.filter_eq_nil_iff]
            intro g hg hcont
            have hig : i ∈ g := by simpa using hcont
            have higr : i ∈ (groupsAux rng n).2 := ihmem g hg i hig
            obtain ⟨i', hi', hmi'⟩ := (mem_groupsAux_grouped rng n i).mp higr
            obtain ⟨hilen, heq'⟩ := (mem_matchingIdx rng i' i).mp hmi'
            obtain ⟨-, heqn⟩ := (mem_matchingIdx rng n i).mp hi
            have : n ∈ (groupsAux rng n).2 :=
              (mem_groupsAux_grouped rng n n).mpr
                ⟨i', hi', (mem_matchingIdx rng i' n).mpr
                  ⟨Nat.lt_of_succ_le hn, heqn.symm.trans heq'⟩⟩
            exact hc.1 this
          rw [hnil]
          simp [hi]
        · rw [show ([matchingIdx rng n].filter (fun g => decide (i ∈ g))) = [] by
            simp [hi]]
          simpa using ihuniq i
    · constructor
      · intro g hg j hj
        simp only [groupsAux, if_neg hc] at hg ⊢
        exact List.mem_append_left _ (ihmem g hg j hj)
      · intro i
        simp only [groupsAux, if_neg hc]
        exact ihuniq i

/-- An axis belonging to a sharing group belongs (positionally) to exactly
that one entry of the group list. -/
theorem shareGroups_filter_eq (rng : List (Nat × Nat)) (g : List Nat)
    (i : Nat) (hg : g ∈ shareGroups rng) (hi : i ∈ g) :
    (shareGroups rng).filter (fun g => decide (i ∈ g)) = [g] := by
  have huniq : ((shareGroups rng).filter (fun g => decide (i ∈ g))).length ≤ 1 :=
    (groupsAux_invariant rng rng.length le_rfl).2 i
  have hmemf : g ∈ (shareGroups rng).filter (fun g => decide (i ∈ g)) :=
    List.mem_filter.mpr ⟨hg, by simpa using hi⟩
  match hf : (shareGroups rng).filter (fun g => decide (i ∈ g)) with
  | [] =>
    rw [hf] at hmemf
    exact absurd hmemf (List.not_mem_nil g)
  | [g'] =>
    rw [hf] at hmemf
    simp only [List.mem_singleton] at hmemf
    rw [hmemf]
  | g' :: g'' :: t =>
    rw [hf] at huniq
    simp at huniq

theorem argmaxNat_lt : ∀ (vals : List Nat), vals ≠ [] → argmaxNat vals < vals.length
  | [_], _ => by simp [argmaxNat]
  | v :: w :: vs, _ => by
    have ih := argmaxNat_lt (w :: vs) (by simp)
    simp only [argmaxNat]
    split
    · simpa using Nat.succ_lt_succ ih
    · simp

theorem le_getD_argmaxNat : ∀ (vals : List Nat) (x : Nat), x ∈ vals →
    x ≤ vals.getD (argmaxNat vals) 0
  | [y], x, hx => by
    simp at hx
    simp [argmaxNat, hx]
  | v :: w :: vs, x, hx => by
    simp only [argmaxNat]
    split
    · rename_i h
      rw [List.getD_cons_succ]
      rcases List.mem_cons.mp hx with h' | h'
      · subst h'
        exact Nat.le_of_lt h
      · exact le_getD_argmaxNat (w :: vs) x h'
    · rename_i h
      rw [List.getD_cons_zero]
      rcases List.mem_cons.mp hx with h' | h'
      · subst h'
        exact le_rfl
      · exact Nat.le_trans (le_getD_argmaxNat (w :: vs) x h') (Nat.le_of_not_lt h)

theorem argminNat_lt : ∀ (vals : List Nat), vals ≠ [] → argminNat vals < vals.length
  | [_], _ => by simp [argminNat]
  | v :: w :: vs, _ => by
    have ih := argminNat_lt (w :: vs) (by simp)
    simp only [argminNat]
    split
    · simpa using Nat.succ_lt_succ ih
    · simp

theorem getD_argminNat_le : ∀ (vals : List Nat) (x : Nat), x ∈ vals →
    vals.getD (argminNat vals) 0 ≤ x
  | [y], x, hx => by
    simp at hx
    simp [argminNat, hx]
  | v :: w :: vs, x, hx => by
    simp only [argminNat]
    split
    · rename_i h
      rw [List.getD_cons_succ]
      rcases List.mem_cons.mp hx with h' | h'
      · subst h'
        exact Nat.le_of_lt h
      · exact getD_argminNat_le (w :: vs) x h'
    · rename_i h
      rw [List.getD_cons_zero]
      rcases List.mem_cons.mp hx with h' | h'
      · subst h'
        exact le_rfl
      · exact Nat.le_trans (Nat.le_of_not_lt h) (getD_argminNat_le (w :: vs) x h')

/-- The base picked for an x-sharing group is a member of the group and its
row range ends no earlier than any member's. -/
theorem xBaseOf_spec (yrng : List (Nat × Nat)) (g : List Nat) (hne : g ≠ []) :
    xBaseOf yrng g ∈ g ∧
      ∀ m ∈ g, (yrng.getD m (0, 0)).2 ≤ (yrng.getD (xBaseOf yrng g) (0, 0)).2 := by
  have hvals : (g.map (fun m => (yrng.getD m (0, 0)).2)) ≠ [] := by
    simpa using hne
  have hidx : argmaxNat (g.map (fun m => (yrng.getD m (0, 0)).2)) < g.length := by
    simpa using argmaxNat_lt _ hvals
  have hbase : xBaseOf yrng g ∈ g := by
    rw [xBaseOf, List.getD_eq_getElem _ _ hidx]
    exact List.getElem_mem _
  refine ⟨hbase, fun m hm => ?_⟩
  have h1 : (yrng.getD m (0, 0)).2 ∈ g.map (fun m => (yrng.getD m (0, 0)).2) :=
    List.mem_map_of_mem _ hm
  have h2 := le_getD_argmaxNat _ _ h1
  have h3 : (g.map (fun m => (yrng.getD m (0, 0)).2)).getD
      (argmaxNat (g.map (fun m => (yrng.getD m (0, 0)).2))) 0 =
      (yrng.getD (xBaseOf yrng g) (0, 0)).2 := by
    rw [List.getD_eq_getElem _ 0
        (show argmaxNat (g.map (fun m => (yrng.getD m (0, 0)).2)) <
          (g.map (fun m => (yrng.getD m (0, 0)).2)).length by simpa using hidx),
      List.getElem_map, xBaseOf, List.getD_eq_getElem _ 0 hidx]
  rw [h3] at h2
  exact h2

/-- The base picked for a y-sharing group is a member of the group and its
column range starts no later than any member's. -/
theorem yBaseOf_spec (xrng : List (Nat × Nat)) (g : List Nat) (hne : g ≠ []) :
    yBaseOf xrng g ∈ g ∧
      ∀ m ∈ g, (xrng.getD (yBaseOf xrng g) (0, 0)).1 ≤ (xrng.getD m (0, 0)).1 := by
  have hvals : (g.map (fun m => (xrng.getD m (0, 0)).1)) ≠ [] := by
    simpa using hne
  have hidx : argminNat (g.map (fun m => (xrng.getD m (0, 0)).1)) < g.length := by
    simpa using argminNat_lt _ hvals
  have hbase : yBaseOf xrng g ∈ g := by
    rw [yBaseOf, List.getD_eq_getElem _ _ hidx]
    exact List.getElem_mem _
  refine ⟨hbase, fun m hm => ?_⟩
  have h1 : (xrng.getD m (0, 0)).1 ∈ g.map (fun m => (xrng.getD m (0, 0)).1) :=
    List.mem_map_of_mem _ hm
  have h2 := getD_argminNat_le _ _ h1
  have h3 : (g.map (fun m => (xrng.getD m (0, 0)).1)).getD
      (argminNat (g.map (fun m => (xrng.getD m (0, 0)).1))) 0 =
      (xrng.getD (yBaseOf xrng g) (0, 0)).1 := by
    rw [List.getD_eq_getElem _ 0
        (show argminNat (g.map (fun m => (xrng.getD m (0, 0)).1)) <
          (g.map (fun m => (xrng.getD m (0, 0)).1)).length by simpa using hidx),
      List.getElem_map, yBaseOf, List.getD_eq_getElem _ 0 hidx]
  rw [h3] at h2
  exact h2

/-- C8: two main axes land in the same x-sharing group exactly when their
column ranges are equal (and in the same y-sharing group exactly when their
row ranges are equal); the base of an x-sharing group is a member whose row
range ends furthest down (bottom-most), the base of a y-sharing group a
member whose column range starts furthest left (left-most); and the wiring
loop shares every non-base member of a group with that group's base. -/
theorem C8_sharing_groups :
    (∀ (xrng : List (Nat × Nat)) (i j : Nat),
       i < xrng.length → j < xrng.length → i ≠ j →
       ((∃ g ∈ shareGroups xrng, i ∈ g ∧ j ∈ g) ↔
         xrng.getD i (0, 0) = xrng.getD j (0, 0))) ∧
    (∀ (yrng : List (Nat × Nat)) (i j : Nat),
       i < yrng.length → j < yrng.length → i ≠ j →
       ((∃ g ∈ shareGroups yrng, i ∈ g ∧ j ∈ g) ↔
         yrng.getD i (0, 0) = yrng.getD j (0, 0))) ∧
    (∀ (xrng yrng : List (Nat × Nat)) (g : List Nat), g ∈ shareGroups xrng →
       xBaseOf yrng g ∈ g ∧
         ∀ m ∈ g, (yrng.getD m (0, 0)).2 ≤ (yrng.getD (xBaseOf yrng g) (0, 0)).2) ∧
    (∀ (xrng yrng : List (Nat × Nat)) (g : List Nat), g ∈ shareGroups yrng →
       yBaseOf xrng g ∈ g ∧
         ∀ m ∈ g, (xrng.getD (yBaseOf xrng g) (0, 0)).1 ≤ (xrng.getD m (0, 0)).1) ∧
    (∀ (xrng yrng : List (Nat × Nat)) (g : List Nat) (i : Nat),
       g ∈ shareGroups xrng → i ∈ g → i ≠ xBaseOf yrng g →
       wireX xrng yrng i = some (xBaseOf yrng g)) ∧
    (∀ (xrng yrng : List (Nat × Nat)) (g : List Nat) (i : Nat),
       g ∈ shareGroups yrng → i ∈ g → i ≠ yBaseOf xrng g →
       wireY xrng yrng i = some (yBaseOf xrng g)) := by
  have hne : ∀ (rng : List (Nat × Nat)) (g : List Nat),
      g ∈ shareGroups rng → g ≠ [] := by
    intro rng g hg
    obtain ⟨k, -, -, -, hlen⟩ := shareGroups_formed rng g hg
    exact List.ne_nil_of_length_pos (Nat.lt_of_lt_of_le Nat.one_pos
      (Nat.le_of_lt hlen))
  refine ⟨shareGroups_pair_iff, shareGroups_pair_iff, ?_, ?_, ?_, ?_⟩
  · intro xrng yrng g hg
    exact xBaseOf_spec yrng g (hne xrng g hg)
  · intro xrng yrng g hg
    exact yBaseOf_spec xrng g (hne yrng g hg)
  · intro xrng yrng g i hg hi hib
    unfold wireX
    rw [shareGroups_filter_eq xrng g i hg hi]
    exact if_neg (fun h => hib h.symm)
  · intro xrng yrng g i hg hi hib
    unfold wireY
    rw [shareGroups_filter_eq yrng g i hg hi]
    exact if_neg (fun h => hib h.symm)

/-- Witness for C8 on a concrete two-axis column: both axes span column 0
(`xrange = [(0,1),(0,1)]`), stacked vertically (`yrange = [(0,1),(1,2)]`), so
they form one x-sharing group whose base is the bottom axis (index 1) and the
top axis is wired to it. -/
theorem C8_sharing_groups_witness :
    (∃ g ∈ shareGroups [((0:Nat), (1:Nat)), (0, 1)], 0 ∈ g ∧ 1 ∈ g) ∧
    (xBaseOf [((0:Nat), (1:Nat)), (1, 2)] [0, 1] ∈ [0, 1] ∧
      ∀ m ∈ [0, 1],
        (([((0:Nat), (1:Nat)), (1, 2)]).getD m (0, 0)).2 ≤
          (([((0:Nat), (1:Nat)), (1, 2)]).getD
            (xBaseOf [((0:Nat), (1:Nat)), (1, 2)] [0, 1]) (0, 0)).2) ∧
    wireX [((0:Nat), (1:Nat)), (0, 1)] [(0, 1), (1, 2)] 0 =
      some (xBaseOf [((0:Nat), (1:Nat)), (1, 2)] [0, 1]) :=
  ⟨(C8_sharing_groups.1 [((0:Nat), (1:Nat)), (0, 1)] 0 1
      (by decide) (by decide) (by decide)).mpr (by decide),
   C8_sharing_groups.2.2.1 [((0:Nat), (1:Nat)), (0, 1)]
     [((0:Nat), (1:Nat)), (1, 2)] [0, 1] (by decide),
   C8_sharing_groups.2.2.2.2.1 [((0:Nat), (1:Nat)), (0, 1)]
     [((0:Nat), (1:Nat)), (1, 2)] [0, 1] 0 (by decide) (by decide) (by decide)⟩

/-! ### C9 — `axes_list.__getattr__` broadcast semantics (lines 762-781)

`values = [getattr(ax, attr, None) for ax in self]`; any `None` raises the
"no method" `AttributeError` first; then: all callable → a wrapping iterator
whose call collects the per-axis results, drops `None`s and collapses
(`None` if empty, bare value if one, list otherwise); none callable → the
attribute values (bare value for a one-element list); mixed → the
"Mixed methods found" `AttributeError`. -/

/-- A per-axis attribute value as `__getattr__` sees it: Python `None`, a
callable (modelled with the result its call would produce, `none` standing
for a call that returns `None`), or a plain non-callable value. -/
inductive PyV
  | pynone
  | callable (res : Option Int)
  | intval (n : Int)
deriving DecidableEq

/-- Whether a `PyV` is callable. -/
def PyV.isCallable : PyV → Bool
  | .callable _ => true
  | _ => false

/-- Result of calling the broadcasting iterator: the non-`None` per-axis call
results collapse to `None` when empty, to the single bare value when exactly
one, and to a list otherwise. -/
inductive CallRes
  | cnone
  | csingle (n : Int)
  | cmany (ns : List Int)
deriving DecidableEq

/-- What a successful attribute access returns: the broadcasting iterator
(carrying the collapse of its eventual call), a single bare attribute value,
or the list of attribute values. -/
inductive GetRes
  | iter (r : CallRes)
  | valsSingle (v : PyV)
  | valsList (vs : List PyV)
deriving DecidableEq

/-- The iterator body: call each axis's method, keep non-`None` results,
collapse. -/
def collapseCall (values : List PyV) : CallRes :=
  let ret := values.filterMap (fun v =>
    match v with
    | .callable (some n) => some n
    | _ => none)
  match ret with
  | [] => .cnone
  | [x] => .csingle x
  | xs => .cmany xs

/-- `axes_list.__getattr__` over the per-axis attribute values. -/
def axesGetattr (values : List PyV) : Except String GetRes :=
  if PyV.pynone ∈ values then
    .error "object has no method"
  else if values.all PyV.isCallable then
    .ok (.iter (collapseCall values))
  else if values.all (fun v => !v.isCallable) then
    .ok (if values.length == 1 then .valsSingle (values.headD .pynone)
         else .valsList values)
  else
    .error "Mixed methods found."

/-- C9 counterexample: a one-axis list whose attribute value is `None` — no
per-axis value is callable, so the claim demands the attribute value
(`None`) be returned, but the code raises the "no method" `AttributeError`
instead. -/
theorem C9_none_value_counterexample :
    ¬axesGetattr [.pynone] = .ok (.valsSingle .pynone) ∧
    axesGetattr [.pynone] = .error "object has no method" := by
  constructor
  · intro h
    simp [axesGetattr] at h
  · rfl

/-- C9 as amended: when some per-axis value is `None` (missing attribute or a
`None`-valued one) an `AttributeError` is raised before any other case;
otherwise, if all per-axis values are callable the result is the
broadcasting iterator whose call collapses the non-`None` results to `None`
when empty, to the bare value when exactly one, and to a list otherwise; if
the (nonempty) list has no callable per-axis value the attribute values are
returned (collapsed to the bare value for a one-element list); and if callables and
non-callables are mixed, the "Mixed methods found" error is raised. -/
theorem C9_broadcast_semantics (values : List PyV) :
    (PyV.pynone ∈ values → ∃ e, axesGetattr values = .error e) ∧
    (PyV.pynone ∉ values → values.all PyV.isCallable = true →
      axesGetattr values = .ok (.iter (collapseCall values)) ∧
      ((values.filterMap (fun v =>
          match v with
          | .callable (some n) => some n
          | _ => none)) = [] → collapseCall values = .cnone) ∧
      (∀ x, (values.filterMap (fun v =>
          match v with
          | .callable (some n) => some n
          | _ => none)) = [x] → collapseCall values = .csingle x) ∧
      (∀ x y t, (values.filterMap (fun v =>
          match v with
          | .callable (some n) => some n
          | _ => none)) = x :: y :: t →
        collapseCall values = .cmany (x :: y :: t))) ∧
    (PyV.pynone ∉ values → values ≠ [] →
      values.all (fun v => !v.isCallable) = true →
      axesGetattr values =
        .ok (if values.length == 1 then .valsSingle (values.headD .pynone)
             else .valsList values)) ∧
    (PyV.pynone ∉ values → values.all PyV.isCallable = false →
      values.all (fun v => !v.isCallable) = false →
      axesGetattr values = .error "Mixed methods found.") := by
  refine ⟨?_, ?_, ?_, ?_⟩
  · intro h
    exact ⟨"object has no method", by rw [axesGetattr, if_pos h]⟩
  · intro h hall
    refine ⟨by rw [axesGetattr, if_neg h, if_pos hall], ?_, ?_, ?_⟩
    · intro hret
      simp only [collapseCall, hret]
    · intro x hret
      simp only [collapseCall, hret]
    · intro x y t hret
      simp only [collapseCall, hret]
  · intro h hne hnc
    have hcal : ¬values.all PyV.isCallable = true := by
      match values, hne with
      | v :: vs, _ =>
        simp only [List.all_cons, Bool.and_eq_true] at hnc ⊢
        intro hc
        rw [hc.1] at hnc
        simp at hnc
    rw [axesGetattr, if_neg h, if_neg hcal, if_pos hnc]
  · intro h h1 h2
    rw [axesGetattr, if_neg h, if_neg (by simp [h1]), if_neg (by simp [h2])]

/-- Witness for C9 at concrete inputs: a singleton callable list, a
two-element non-callable list, and a mixed list. -/
theorem C9_broadcast_semantics_witness :
    axesGetattr [PyV.callable (some 4)] =
      .ok (.iter (collapseCall [PyV.callable (some 4)])) ∧
    collapseCall [PyV.callable (some 4)] = .csingle 4 ∧
    axesGetattr [PyV.intval 7, PyV.intval 8] =
      .ok (.valsList [PyV.intval 7, PyV.intval 8]) ∧
    axesGetattr [PyV.callable none, PyV.intval 7] =
      .error "Mixed methods found." :=
  ⟨((C9_broadcast_semantics [PyV.callable (some 4)]).2.1
      (by decide) (by decide)).1,
   ((C9_broadcast_semantics [PyV.callable (some 4)]).2.1
      (by decide) (by decide)).2.2.1 4 rfl,
   by
     have h := (C9_broadcast_semantics [PyV.intval 7, PyV.intval 8]).2.2.1
       (by decide) (by decide) (by decide)
     simpa using h,
   (C9_broadcast_semantics [PyV.callable none, PyV.intval 7]).2.2.2
     (by decide) (by decide) (by decide)⟩

/-! ### C10 — default inner-panel side (`Figure.panel_factory`, lines 639-729)

`whichpanels` passes through the word-to-letter translation dict, then
`whichpanels = whichpanels or 'r'` replaces `None` and the empty string with
`"r"`.  The local sub-grid is laid out from the requested side letters; the
creation loop walks the `(top-bottom) x (left-right)` positions, skipping the
main-axes cell and the deliberately empty corner cells, and each created
panel is stored in the `panels` dict keyed by its side; finally the main
axes' four panel slots are filled from the dict, missing sides getting the
`EmptyPanel` sentinel. -/

/-- Panel sides. -/
inductive PanelSide
  | left
  | right
  | bottom
  | top
deriving DecidableEq

/-- The word-form aliases accepted by `panel_factory`
(`{'bottom':'b', 'top':'t', 'right':'r', 'left':'l'}.get(whichpanels,
whichpanels)`). -/
def translateWhich (w : List Char) : List Char :=
  if w = "bottom".toList then ['b']
  else if w = "top".toList then ['t']
  else if w = "right".toList then ['r']
  else if w = "left".toList then ['l']
  else w

/-- Resolution of the `whichpanels` argument: translate word forms, then
`whichpanels or 'r'` (Python `None` and `""` are falsy). -/
def resolveWhich (w : Option (List Char)) : List Char :=
  match w with
  | none => ['r']
  | some s =>
    let s := translateWhich s
    if s = [] then ['r'] else s

/-- Side letter to side, as the creation loop's inverse translation dict. -/
def charSide : Char → Option PanelSide
  | 'b' => some .bottom
  | 't' => some .top
  | 'l' => some .left
  | 'r' => some .right
  | _ => none

/-- The panels created by `panel_factory` for a resolved `whichpanels`
string, in creation order (rows top to bottom, columns left to right,
skipping the main-axes position and the empty corner positions). -/
def mkPanels (which : List Char) : List PanelSide :=
  let sidesLR : List (Option Char) :=
    ([some 'l', none, some 'r']).filter (fun o =>
      o.isNone || (o.getD ' ') ∈ which)
  let sidesTB : List (Option Char) :=
    ([some 't', none, some 'b']).filter (fun o =>
      o.isNone || (o.getD ' ') ∈ which)
  let mainPos : Nat × Nat :=
    (if 't' ∈ which then 1 else 0, if 'l' ∈ which then 1 else 0)
  let corners : List ((Char × Char) × (Nat × Nat)) :=
    [(('t', 'l'), (0, 0)), (('t', 'r'), (0, mainPos.2 + 1)),
     (('b', 'l'), (mainPos.1 + 1, 0)), (('b', 'r'), (mainPos.1 + 1, mainPos.2 + 1))]
  let emptyPos : List (Nat × Nat) :=
    (corners.filter (fun cp => cp.1.1 ∈ which && cp.1.2 ∈ which)).map (fun cp => cp.2)
  (sidesTB.enum.map (fun rtb =>
    sidesLR.enum.filterMap (fun clr =>
      if (rtb.1, clr.1) ∈ emptyPos ∨ (rtb.1, clr.1) = mainPos then none
      else charSide ((match rtb.2 with
        | some c => some c
        | none => clr.2).getD ' ')))).flatten

/-- The four panel slots stored on the returned main axes: `true` means a
created panel, `false` the `EmptyPanel` sentinel. -/
structure PanelSlots where
  bottomSlot : Bool
  topSlot : Bool
  leftSlot : Bool
  rightSlot : Bool
deriving DecidableEq

/-- Slot assignment after the creation loop
(`panels.get(side, axes.EmptyPanel())`). -/
def panelSlots (which : List Char) : PanelSlots :=
  let ps := mkPanels which
  ⟨.bottom ∈ ps, .top ∈ ps, .left ∈ ps, .right ∈ ps⟩

/-- C10: when `whichpanels` is `None` or `""`, `panel_factory` creates
exactly one panel, on the right side of the main axes, and the returned main
axes' `rightpanel` slot holds it while the left, top and bottom slots hold
the empty-panel sentinel. -/
theorem C10_default_panel_side :
    mkPanels (resolveWhich none) = [PanelSide.right] ∧
    mkPanels (resolveWhich (some [])) = [PanelSide.right] ∧
    panelSlots (resolveWhich none) =
      ⟨false, false, false, true⟩ ∧
    panelSlots (resolveWhich (some [])) =
      ⟨false, false, false, true⟩ := by
  decide

end Proplot
